import Mathlib

/-!
Verification development for the Prosperity Vault daemon
(`src/vault/src/{crypto,vault,audit,api,main}.rs`).

The Rust sources are shallowly embedded as executable Lean definitions:

* Machine bytes are modelled as `Nat` (byte strings as `List Nat`).
* The external cryptographic primitives (Argon2id, HKDF-SHA256,
  XChaCha20-Poly1305, BLAKE3) are library calls, not code of this
  repository.  They are modelled as ideal deterministic primitives: key
  derivation is an injective function of its inputs, the AEAD keeps the
  exact on-disk framing `nonce(24) || body || tag(16)` of the source with
  an ideal (injective) authentication tag, and the audit hash is an
  injective digest of the canonical hash-input string.  Randomness
  (salts, nonces, fresh DEKs, UUIDs, timestamps) is passed in explicitly
  as arguments.
* File-system state is a record of the files the vault owns.  Writes
  carry a `synced` flag recording whether the write path issued an
  fsync (`File::sync_all`), mirroring which source paths call it.
* `serde_json` serialization of category data is modelled by an
  injective executable codec; the plain-text metadata file and the
  decrypted audit-log content are modelled structurally.
-/

/-! ## Injective encoding of byte lists (ideal-primitive backbone) -/

/-- One plus the maximum element of a list: a base strictly larger than
every element, used for positional encoding. -/
def listBase (l : List Nat) : Nat := l.foldr Nat.max 0 + 1

/-- Positional value of a list of digits in base `b` (least significant
digit first). -/
def listDigits (b : Nat) : List Nat → Nat
  | [] => 0
  | x :: r => x + b * listDigits b r

/-- Injective encoding of a list of naturals into one natural: pair the
length and the base with the positional value of the digits. -/
def encodeList (l : List Nat) : Nat :=
  Nat.pair (Nat.pair l.length (listBase l)) (listDigits (listBase l) l)

/-- Partial inverse of `encodeList` (total; garbage in, garbage out). -/
def decodeList (n : Nat) : List Nat :=
  let len := n.unpair.1.unpair.1
  let b := n.unpair.1.unpair.2
  (List.range len).map (fun i => n.unpair.2 / b ^ i % b)

/-! ## Crypto primitives (`crypto.rs`) -/

/-- Byte view of a Rust `&str` (UTF-8 abstracted to code points). -/
def strBytes (s : String) : List Nat := s.data.map Char.toNat

/-- Ideal model of `derive_master_key` (Argon2id): a deterministic
function, injective in the (passphrase, salt) pair. -/
def deriveMasterKey (pass salt : List Nat) : List Nat :=
  pass.length :: (pass ++ salt)

/-- Ideal model of `derive_subkey` (HKDF-SHA256 expand with the context
label as info): deterministic, injective in the (master, context) pair. -/
def deriveSubkey (master : List Nat) (ctx : String) : List Nat :=
  master.length :: (master ++ strBytes ctx)

/-- The literal `[0u8; 32]` appearing in `api.rs::handle_unlock`. -/
def zeroSalt : List Nat := List.replicate 32 0

/-- Keystream of the modelled stream cipher, a deterministic function of
key, nonce and position. -/
def keystream (k n : List Nat) (len : Nat) : List Nat :=
  (List.range len).map (fun i => k.sum + n.sum + i)

/-- Body of the AEAD ciphertext: plaintext XOR keystream (XChaCha20 is a
keystream XOR; the keystream itself is idealized). -/
def cipherBody (k n m : List Nat) : List Nat :=
  List.zipWith (fun a b => a ^^^ b) m (keystream k n m.length)

/-- Ideal Poly1305 tag content: an injective digest of (key, nonce, body). -/
def tagNat (k n b : List Nat) : Nat :=
  Nat.pair (encodeList k) (Nat.pair (encodeList n) (encodeList b))

/-- The 16-byte authentication tag; the digest occupies the first slot. -/
def tagFun (k n b : List Nat) : List Nat :=
  tagNat k n b :: List.replicate 15 0

/-- Model of `crypto::encrypt`: output is exactly
`nonce (24 bytes) || ciphertext_body || tag (16 bytes)`.  The random
nonce drawn inside the source function is passed explicitly. -/
def encrypt (nonce m k : List Nat) : List Nat :=
  nonce ++ cipherBody k nonce m ++ tagFun k nonce (cipherBody k nonce m)

/-- Model of `crypto::decrypt`: reject inputs shorter than
`NONCE_LEN + 16 = 40`, split off nonce and tag, check the tag, return
the decrypted body.  `none` models the `Err` results of the source. -/
def decrypt (c k : List Nat) : Option (List Nat) :=
  if c.length < 40 then none
  else
    let n := c.take 24
    let rest := c.drop 24
    let body := rest.take (rest.length - 16)
    let tg := rest.drop (rest.length - 16)
    if tg = tagFun k n body then
      some (List.zipWith (fun a b => a ^^^ b) body (keystream k n body.length))
    else none

/-! ## Vault data model (`vault.rs`) -/

/-- The six vault categories (`vault.rs::Category`). -/
inductive Category where
  | authentication
  | financial
  | identity
  | health
  | personal
  | patterns
deriving DecidableEq, Repr

/-- `Category::all()`, in source order. -/
def Category.all : List Category :=
  [.authentication, .financial, .identity, .health, .personal, .patterns]

/-- `Category::context_string()`. -/
def Category.contextString : Category → String
  | .authentication => "category-auth"
  | .financial => "category-financial"
  | .identity => "category-identity"
  | .health => "category-health"
  | .personal => "category-personal"
  | .patterns => "category-patterns"

/-- `Category::filename()`. -/
def Category.filename : Category → String
  | .authentication => "auth.enc"
  | .financial => "financial.enc"
  | .identity => "identity.enc"
  | .health => "health.enc"
  | .personal => "personal.enc"
  | .patterns => "patterns.enc"

/-- Entry types (`vault.rs::EntryType`). -/
inductive EntryType where
  | password
  | apiKey
  | oauthToken
  | totpSeed
  | card
  | bankAccount
  | identity
  | secureNote
  | certificate
  | recoveryCode
  | command
  | preference
  | schedule
deriving DecidableEq, Repr

/-- A vault entry (`vault.rs::VaultEntry`); the `Uuid` is modelled as a
`Nat`, timestamps as `Nat`. -/
structure VaultEntry where
  id : Nat
  category : Category
  entry_type : EntryType
  name : String
  username : Option String
  url : Option String
  notes : Option String
  value : List Nat
  tags : List String
  created : Nat
  modified : Nat
  accessed : Nat
  access_count : Nat
deriving DecidableEq, Repr

/-- `vault.rs::EntryMetadata`: the projection returned by list
operations; it has no `value`, `notes` or timestamp fields. -/
structure EntryMetadata where
  id : Nat
  category : Category
  entry_type : EntryType
  name : String
  username : Option String
  url : Option String
  tags : List String
deriving DecidableEq, Repr

/-- The projection built inside `Vault::list_entries`. -/
def toMeta (e : VaultEntry) : EntryMetadata :=
  { id := e.id, category := e.category, entry_type := e.entry_type,
    name := e.name, username := e.username, url := e.url, tags := e.tags }

/-- `vault.rs::CategoryData`. -/
structure CategoryData where
  entries : List VaultEntry
deriving DecidableEq, Repr

/-- `vault.rs::VaultMeta` (plain-text metadata header). -/
structure VaultMeta where
  version : Nat
  created : Nat
  modified : Nat
  salt : List Nat
  kdf_memory_kib : Nat
  kdf_iterations : Nat
  kdf_parallelism : Nat
  recovery_enabled : Bool
  hardware_key_required : Bool
deriving DecidableEq, Repr

/-! ### Category file codec (model of serde_json for `CategoryData`) -/

/-- Injective encoding of a string into one natural. -/
def encStr (s : String) : Nat := encodeList (strBytes s)

/-- Decode a string from one natural (total; inverse on the image). -/
def decStr (n : Nat) : String :=
  String.mk ((decodeList n).map Char.ofNat)

/-- Injective encoding of an optional value. -/
def encOpt (f : α → Nat) : Option α → Nat
  | none => 0
  | some a => f a + 1

/-- Decode an optional value. -/
def decOpt (f : Nat → Option α) (n : Nat) : Option (Option α) :=
  match n with
  | 0 => some none
  | k + 1 => (f k).map some

/-- Numeric index of a category. -/
def Category.toNat : Category → Nat
  | .authentication => 0
  | .financial => 1
  | .identity => 2
  | .health => 3
  | .personal => 4
  | .patterns => 5

/-- Category from its numeric index. -/
def Category.fromIdx : Nat → Option Category
  | 0 => some .authentication
  | 1 => some .financial
  | 2 => some .identity
  | 3 => some .health
  | 4 => some .personal
  | 5 => some .patterns
  | _ => none

/-- Numeric index of an entry type. -/
def EntryType.toNat : EntryType → Nat
  | .password => 0
  | .apiKey => 1
  | .oauthToken => 2
  | .totpSeed => 3
  | .card => 4
  | .bankAccount => 5
  | .identity => 6
  | .secureNote => 7
  | .certificate => 8
  | .recoveryCode => 9
  | .command => 10
  | .preference => 11
  | .schedule => 12

/-- Entry type from its numeric index. -/
def EntryType.fromIdx : Nat → Option EntryType
  | 0 => some .password
  | 1 => some .apiKey
  | 2 => some .oauthToken
  | 3 => some .totpSeed
  | 4 => some .card
  | 5 => some .bankAccount
  | 6 => some .identity
  | 7 => some .secureNote
  | 8 => some .certificate
  | 9 => some .recoveryCode
  | 10 => some .command
  | 11 => some .preference
  | 12 => some .schedule
  | _ => none

/-- Encode one entry as one natural (model of its JSON object). -/
def encodeEntry (e : VaultEntry) : Nat :=
  Nat.pair e.id (Nat.pair e.category.toNat (Nat.pair e.entry_type.toNat
    (Nat.pair (encStr e.name) (Nat.pair (encOpt encStr e.username)
    (Nat.pair (encOpt encStr e.url) (Nat.pair (encOpt encStr e.notes)
    (Nat.pair (encodeList e.value) (Nat.pair (encodeList (e.tags.map encStr))
    (Nat.pair e.created (Nat.pair e.modified
    (Nat.pair e.accessed e.access_count)))))))))))

/-- Decode one entry from one natural. -/
def decodeEntry (n : Nat) : Option VaultEntry :=
  let r0 := n.unpair
  let r1 := r0.2.unpair
  let r2 := r1.2.unpair
  let r3 := r2.2.unpair
  let r4 := r3.2.unpair
  let r5 := r4.2.unpair
  let r6 := r5.2.unpair
  let r7 := r6.2.unpair
  let r8 := r7.2.unpair
  let r9 := r8.2.unpair
  let r10 := r9.2.unpair
  let r11 := r10.2.unpair
  match Category.fromIdx r1.1, EntryType.fromIdx r2.1,
      decOpt (fun k => some (decStr k)) r4.1,
      decOpt (fun k => some (decStr k)) r5.1,
      decOpt (fun k => some (decStr k)) r6.1 with
  | some cat, some ty, some username, some url, some notes =>
    some { id := r0.1, category := cat, entry_type := ty,
           name := decStr r3.1, username := username, url := url,
           notes := notes, value := decodeList r7.1,
           tags := (decodeList r8.1).map decStr,
           created := r9.1, modified := r10.1,
           accessed := r11.1, access_count := r11.2 }
  | _, _, _, _, _ => none

/-- Plain-text bytes of a category file (model of `serde_json::to_vec`). -/
def serializeCat (d : CategoryData) : List Nat :=
  d.entries.map encodeEntry

/-- Parse category-file plain text (model of `serde_json::from_slice`);
`none` models a `CorruptFormat` decode failure. -/
def parseCat (l : List Nat) : Option CategoryData :=
  (l.mapM decodeEntry).map CategoryData.mk


/-! ## File system model -/

/-- Content of one on-disk file plus whether the write path that
produced it issued `sync_all` (fsync). -/
structure FileData (α : Type) where
  data : α
  synced : Bool
deriving Repr

/-! ## Audit log data (`audit.rs`), file-level part -/

/-- `audit.rs::AuditEventType`. -/
inductive AuditEventType where
  | vaultUnlock
  | vaultLock
  | categoryUnlock
  | entryAccess
  | entryCreate
  | entryUpdate
  | entryDelete
  | authUse
  | anomalyDetected
  | accessDenied
deriving DecidableEq, Repr

/-- `audit.rs::AuditEntry`; `Uuid` and timestamps are modelled by their
rendered strings (only their textual form enters the hash input). -/
structure AuditEntry where
  id : String
  timestamp : String
  event_type : AuditEventType
  entry_id : Option String
  entry_name : Option String
  category : Option Category
  agent_id : Option String
  origin_chain : Option (List String)
  purpose : Option String
  granted : Bool
  denial_reason : Option String
  target_domain : Option String
  previous_hash : String
  entry_hash : String
deriving DecidableEq, Repr

/-- On-disk `audit.enc`: one AEAD blob whose plain text is the
newline-delimited entry list.  The blob is modelled as the key it was
sealed under together with its decrypted content; opening it with a
different key is a decryption failure. -/
structure AuditFile where
  key : List Nat
  entries : List AuditEntry

/-- The state of the vault directory on disk.  `dekFile` and `catFiles`
hold AEAD ciphertext bytes; the plain-text `vault.meta` and the
audit blob are modelled structurally. -/
structure FS where
  vaultDirExists : Bool
  dekFile : Option (FileData (List Nat))
  catFiles : Category → Option (FileData (List Nat))
  metaFile : Option (FileData VaultMeta)
  auditFile : Option AuditFile

/-! ## Vault store (`vault.rs::Vault`) -/

/-- Error kinds of the vault layer (§7 of the specification; the source
uses `anyhow` strings with these meanings). -/
inductive VErr where
  | io
  | wrongPassphrase
  | badDekLen
  | noKey
  | tampered
  | corrupt
  | unavailable
deriving DecidableEq, Repr

/-- Human-readable rendering of a vault error (stands in for the
`anyhow` message strings of the source). -/
def errMsg : VErr → String
  | .io => "file not found"
  | .wrongPassphrase => "Decryption failed: invalid key or tampered data"
  | .badDekLen => "Invalid DEK length"
  | .noKey => "Category key not available"
  | .tampered => "Decryption failed: invalid key or tampered data"
  | .corrupt => "invalid category data"
  | .unavailable => "Category not available"

/-- In-memory vault state (`vault.rs::Vault`); the two `HashMap` fields
are modelled as functions from `Category`. -/
structure Vault where
  meta : VaultMeta
  master_key : Option (List Nat)
  kek : Option (List Nat)
  dek : Option (List Nat)
  category_keys : Category → Option (List Nat)
  unlocked_categories : Category → Option CategoryData

/-- `Vault::is_unlocked`. -/
def Vault.isUnlocked (v : Vault) : Bool := v.master_key.isSome

/-- `Vault::lock`: clear every key and all decrypted category data. -/
def Vault.lock (v : Vault) : Vault :=
  { v with master_key := none, kek := none, dek := none,
           category_keys := fun _ => none,
           unlocked_categories := fun _ => none }

/-- `Vault::open`: load the metadata file; no keys are present. -/
def Vault.openVault (fs : FS) : Except VErr Vault :=
  match fs.metaFile with
  | none => .error .io
  | some mf => .ok { meta := mf.data, master_key := none, kek := none,
                     dek := none, category_keys := fun _ => none,
                     unlocked_categories := fun _ => none }

/-- `Vault::unlock`, with the mutation of `&mut self` made explicit:
the result pairs an optional error with the vault state after the call
(unchanged unless every fallible step succeeded). -/
def Vault.unlockRes (v : Vault) (fs : FS) (pass : String) : Option VErr × Vault :=
  let master := deriveMasterKey (strBytes pass) v.meta.salt
  let kek := deriveSubkey master "kek"
  match fs.dekFile with
  | none => (some .io, v)
  | some f =>
    match decrypt f.data kek with
    | none => (some .wrongPassphrase, v)
    | some dekBytes =>
      if dekBytes.length = 32 then
        let v2 : Vault :=
          { v with master_key := some master, kek := some kek, dek := some dekBytes,
                   category_keys := fun c => some (deriveSubkey master c.contextString) }
        (none, v2)
      else (some .badDekLen, v)

/-- `Vault::load_category`: decrypt the category file under the
category key and parse it; on success cache the result. -/
def Vault.loadCategory (v : Vault) (fs : FS) (c : Category) : Except VErr Vault :=
  match v.category_keys c with
  | none => .error .noKey
  | some k =>
    match fs.catFiles c with
    | none => .error .io
    | some f =>
      match decrypt f.data k with
      | none => .error .tampered
      | some pt =>
        match parseCat pt with
        | none => .error .corrupt
        | some d =>
          .ok { v with unlocked_categories :=
                  fun c2 => if c2 = c then some d else v.unlocked_categories c2 }

/-- The pure content a load of category `c` would produce, if any. -/
def pureLoadCat (v : Vault) (fs : FS) (c : Category) : Option CategoryData :=
  match v.category_keys c, fs.catFiles c with
  | some k, some f => (decrypt f.data k).bind parseCat
  | _, _ => none

/-- `Vault::save_category`: serialize, encrypt under the category key
(fresh `nonce` passed explicitly) and write the file; `save_encrypted`
calls `sync_all`, so the write is marked `synced`. -/
def Vault.saveCategory (v : Vault) (fs : FS) (c : Category) (nonce : List Nat) :
    Except VErr FS :=
  match v.category_keys c with
  | none => .error .noKey
  | some k =>
    match v.unlocked_categories c with
    | none => .error .unavailable
    | some d =>
      .ok { fs with catFiles := fun c2 =>
              if c2 = c then some { data := encrypt nonce (serializeCat d) k, synced := true }
              else fs.catFiles c2 }

/-- `Vault::unlock_categories`: unlock, then eagerly load the listed
categories; the first failing load aborts (loads so far are kept, as in
the source, but the caller then discards the vault). -/
def Vault.loadListRes (v : Vault) (fs : FS) : List Category → Option VErr × Vault
  | [] => (none, v)
  | c :: rest =>
    match v.loadCategory fs c with
    | .error e => (some e, v)
    | .ok v2 => v2.loadListRes fs rest

/-- `Vault::unlock_categories` (see `loadListRes`). -/
def Vault.unlockCatsRes (v : Vault) (fs : FS) (pass : String) (cats : List Category) :
    Option VErr × Vault :=
  match v.unlockRes fs pass with
  | (some e, v1) => (some e, v1)
  | (none, v1) => v1.loadListRes fs cats

/-- `Vault::add_entry`: load the category if needed, append the entry,
persist the category. -/
def Vault.addEntry (v : Vault) (fs : FS) (e : VaultEntry) (nonce : List Nat) :
    Except VErr (Nat × Vault × FS) :=
  let c := e.category
  match (if (v.unlocked_categories c).isSome then Except.ok v else v.loadCategory fs c) with
  | .error err => .error err
  | .ok v1 =>
    match v1.unlocked_categories c with
    | none => .error .unavailable
    | some d =>
      let v2 : Vault := { v1 with unlocked_categories :=
        fun c2 => if c2 = c then some ⟨d.entries ++ [e]⟩ else v1.unlocked_categories c2 }
      match v2.saveCategory fs c nonce with
      | .error err => .error err
      | .ok fs2 => .ok (e.id, v2, fs2)

/-- `Vault::get_entry`, loading pass: load every category not yet
loaded, in `Category::all()` order. -/
def Vault.loadAllFrom (v : Vault) (fs : FS) : List Category → Except VErr Vault
  | [] => .ok v
  | c :: rest =>
    match (if (v.unlocked_categories c).isSome then Except.ok v else v.loadCategory fs c) with
    | .error e => .error e
    | .ok v2 => v2.loadAllFrom fs rest

/-- Load every category not yet loaded. -/
def Vault.loadAll (v : Vault) (fs : FS) : Except VErr Vault :=
  v.loadAllFrom fs Category.all

/-- Search pass of `Vault::get_entry`: the source iterates
`self.unlocked_categories.values()`, a `HashMap` whose iteration order
is arbitrary; that order is exposed here as the `order` argument. -/
def searchOrder (v : Vault) (id : Nat) : List Category → Option VaultEntry
  | [] => none
  | c :: rest =>
    match v.unlocked_categories c with
    | none => searchOrder v id rest
    | some d =>
      match d.entries.find? (fun e => e.id == id) with
      | some e => some e
      | none => searchOrder v id rest

/-- `Vault::get_entry`: load all categories, then scan the cached map
in the (arbitrary) `order` of `HashMap::values`. -/
def Vault.getEntry (v : Vault) (fs : FS) (order : List Category) (id : Nat) :
    Except VErr (Option VaultEntry × Vault) :=
  match v.loadAll fs with
  | .error e => .error e
  | .ok v2 => .ok (searchOrder v2 id order, v2)

/-- The behavior the specification text ascribes to `get_entry`:
search the categories in `Category::all()` order.  (This definition
follows the words of the spec, for comparison with the code.) -/
def getEntrySpecOrder (v : Vault) (id : Nat) : Option VaultEntry :=
  searchOrder v id Category.all

/-- `Vault::list_entries`: load the category if needed, then return the
metadata projection of its entries in order. -/
def Vault.listEntries (v : Vault) (fs : FS) (c : Category) :
    Except VErr (List EntryMetadata × Vault) :=
  match v.unlocked_categories c with
  | some d => .ok (d.entries.map toMeta, v)
  | none =>
    match v.loadCategory fs c with
    | .error e => .error e
    | .ok v2 =>
      match v2.unlocked_categories c with
      | some d => .ok (d.entries.map toMeta, v2)
      | none => .error .unavailable

/-- `Vault::delete_entry`: walk `Category::all()`, loading each missing
category; remove the first entry whose id matches and persist that
category. -/
def Vault.deleteLoop (v : Vault) (fs : FS) (id : Nat) (nonce : List Nat) :
    List Category → Except VErr (Bool × Vault × FS)
  | [] => .ok (false, v, fs)
  | c :: rest =>
    match (if (v.unlocked_categories c).isSome then Except.ok v else v.loadCategory fs c) with
    | .error e => .error e
    | .ok v1 =>
      match v1.unlocked_categories c with
      | none => .error .unavailable
      | some d =>
        if d.entries.any (fun e => e.id == id) then
          let v2 : Vault := { v1 with unlocked_categories :=
            fun c2 => if c2 = c then some ⟨d.entries.eraseP (fun e => e.id == id)⟩
                      else v1.unlocked_categories c2 }
          match v2.saveCategory fs c nonce with
          | .error e => .error e
          | .ok fs2 => .ok (true, v2, fs2)
        else v1.deleteLoop fs id nonce rest

/-- `Vault::delete_entry` (see `deleteLoop`). -/
def Vault.deleteEntry (v : Vault) (fs : FS) (id : Nat) (nonce : List Nat) :
    Except VErr (Bool × Vault × FS) :=
  v.deleteLoop fs id nonce Category.all

/-- `Vault::create`: fresh salt and DEK (passed explicitly), derive the
key hierarchy, write `dek.enc` (plain `File::create` + `write_all`, no
`sync_all`), write each empty category file through `save_encrypted`
(which does call `sync_all`), and write `vault.meta` (again no
`sync_all`). -/
def Vault.create (fs : FS) (pass : String) (now : Nat) (salt dek dekNonce : List Nat)
    (catNonce : Category → List Nat) : Vault × FS :=
  let meta : VaultMeta :=
    { version := 1, created := now, modified := now, salt := salt,
      kdf_memory_kib := 262144, kdf_iterations := 4, kdf_parallelism := 4,
      recovery_enabled := false, hardware_key_required := false }
  let master := deriveMasterKey (strBytes pass) salt
  let kek := deriveSubkey master "kek"
  let catKey : Category → List Nat := fun c => deriveSubkey master c.contextString
  let fs1 : FS :=
    { fs with
        vaultDirExists := true,
        dekFile := some { data := encrypt dekNonce dek kek, synced := false },
        catFiles := fun c =>
          some { data := encrypt (catNonce c) (serializeCat ⟨[]⟩) (catKey c), synced := true },
        metaFile := some { data := meta, synced := false } }
  ({ meta := meta, master_key := some master, kek := some kek, dek := some dek,
     category_keys := fun c => some (catKey c),
     unlocked_categories := fun _ => none }, fs1)

/-- Entries cached for a category (empty when the category is not
loaded); used to state search and uniqueness properties. -/
def entriesOf (v : Vault) (c : Category) : List VaultEntry :=
  match v.unlocked_categories c with
  | none => []
  | some d => d.entries

/-- A list of categories is a valid enumeration of the keys of
`unlocked_categories` (what `HashMap::values` may iterate). -/
def validEnum (v : Vault) (order : List Category) : Prop :=
  order.Nodup ∧ ∀ c ∈ Category.all, ((v.unlocked_categories c).isSome ↔ c ∈ order)

/-- Global uniqueness of entry ids across all cached categories. -/
def uniqueIds (v : Vault) : Prop :=
  ∀ c1 ∈ Category.all, ∀ c2 ∈ Category.all,
    ∀ e1 ∈ entriesOf v c1, ∀ e2 ∈ entriesOf v c2,
      e1.id = e2.id → c1 = c2 ∧ e1 = e2

/-! ## Audit log operations (`audit.rs`) -/

/-- Rust `Debug` rendering of an `AuditEventType` value. -/
def dbgEventType : AuditEventType → String
  | .vaultUnlock => "VaultUnlock"
  | .vaultLock => "VaultLock"
  | .categoryUnlock => "CategoryUnlock"
  | .entryAccess => "EntryAccess"
  | .entryCreate => "EntryCreate"
  | .entryUpdate => "EntryUpdate"
  | .entryDelete => "EntryDelete"
  | .authUse => "AuthUse"
  | .anomalyDetected => "AnomalyDetected"
  | .accessDenied => "AccessDenied"

/-- Rust `Debug` rendering of a `Category` value. -/
def dbgCategory : Category → String
  | .authentication => "Authentication"
  | .financial => "Financial"
  | .identity => "Identity"
  | .health => "Health"
  | .personal => "Personal"
  | .patterns => "Patterns"

/-- Rust `Debug` rendering of an `Option<String>` (string escaping of
exotic characters is elided). -/
def dbgOptStr : Option String → String
  | none => "None"
  | some s => "Some(\"" ++ s ++ "\")"

/-- Rust `Debug` rendering of an `Option<Uuid>` (no quotes). -/
def dbgOptPlain : Option String → String
  | none => "None"
  | some s => "Some(" ++ s ++ ")"

/-- Rust `Debug` rendering of an `Option<Category>`. -/
def dbgOptCat : Option Category → String
  | none => "None"
  | some c => "Some(" ++ dbgCategory c ++ ")"

/-- Rust `Debug` rendering of an `Option<Vec<String>>`. -/
def dbgOptChain : Option (List String) → String
  | none => "None"
  | some l =>
    "Some([" ++ String.intercalate ", " (l.map (fun s => "\"" ++ s ++ "\"")) ++ "])"

/-- Rust `Display` rendering of a bool. -/
def dbgBool : Bool → String
  | true => "true"
  | false => "false"

/-- The canonical hash input of `AuditEntry::compute_hash`: the 13
fields joined by the pipe separator, in source order, ending with
`previous_hash`; `entry_hash` itself is not part of the input. -/
def hashInput (e : AuditEntry) : String :=
  String.intercalate "|"
    [e.id, e.timestamp, dbgEventType e.event_type, dbgOptPlain e.entry_id,
     dbgOptStr e.entry_name, dbgOptCat e.category, dbgOptStr e.agent_id,
     dbgOptChain e.origin_chain, dbgOptStr e.purpose, dbgBool e.granted,
     dbgOptStr e.denial_reason, dbgOptStr e.target_domain, e.previous_hash]

/-- Ideal model of the BLAKE3 hex digest: a deterministic injective
digest of the input string. -/
def blake3Hex (s : String) : String :=
  "b3" ++ toString (encodeList (strBytes s))

/-- `AuditEntry::compute_hash`: set `entry_hash` from the canonical
input (which does not read `entry_hash`). -/
def AuditEntry.rehash (e : AuditEntry) : AuditEntry :=
  { e with entry_hash := blake3Hex (hashInput e) }

/-- `AuditEntry::new`: fresh id and timestamp are passed explicitly. -/
def AuditEntry.mkNew (t : AuditEventType) (prev id ts : String) : AuditEntry :=
  AuditEntry.rehash
    { id := id, timestamp := ts, event_type := t, entry_id := none,
      entry_name := none, category := none, agent_id := none,
      origin_chain := none, purpose := none, granted := true,
      denial_reason := none, target_domain := none,
      previous_hash := prev, entry_hash := "" }

/-- `AuditEntry::with_entry`. -/
def AuditEntry.withEntry (e : AuditEntry) (eid ename : String) : AuditEntry :=
  AuditEntry.rehash { e with entry_id := some eid, entry_name := some ename }

/-- `AuditEntry::with_category`. -/
def AuditEntry.withCategory (e : AuditEntry) (c : Category) : AuditEntry :=
  AuditEntry.rehash { e with category := some c }

/-- `AuditEntry::with_agent`. -/
def AuditEntry.withAgent (e : AuditEntry) (a : String) : AuditEntry :=
  AuditEntry.rehash { e with agent_id := some a }

/-- `AuditEntry::with_purpose`. -/
def AuditEntry.withPurpose (e : AuditEntry) (p : String) : AuditEntry :=
  AuditEntry.rehash { e with purpose := some p }

/-- `AuditEntry::denied`. -/
def AuditEntry.denied (e : AuditEntry) (reason : String) : AuditEntry :=
  AuditEntry.rehash { e with granted := false, denial_reason := some reason }

/-- `AuditEntry::verify_hash`: recompute from the fields and compare
(the source clears `entry_hash` first, which the hash input ignores). -/
def AuditEntry.verifyHash (e : AuditEntry) : Bool :=
  e.entry_hash == blake3Hex (hashInput e)

/-- The genesis hash: 64 zeros. -/
def genesisHash : String :=
  "0000000000000000000000000000000000000000000000000000000000000000"

/-- In-memory audit-log handle (`audit.rs::AuditLog`): the key and the
`last_hash` cursor; the file content itself lives in `FS`. -/
structure AuditLog where
  key : List Nat
  last_hash : String

/-- Hash of the last entry of the decrypted log (genesis if empty),
as computed by `AuditLog::read_last_hash`. -/
def AuditFile.lastHash (f : AuditFile) : String :=
  match f.entries.getLast? with
  | none => genesisHash
  | some e => e.entry_hash

/-- `AuditLog::open`: a missing file yields a fresh log at genesis; an
existing file is decrypted (wrong key fails) and the cursor starts at
the last entry hash. -/
def openLog (file : Option AuditFile) (key : List Nat) : Except String AuditLog :=
  match file with
  | none => .ok { key := key, last_hash := genesisHash }
  | some f =>
    if f.key = key then .ok { key := key, last_hash := f.lastHash }
    else .error "decryption failed"

/-- `AuditLog::append`: set `previous_hash` from the in-memory
`last_hash`, recompute the entry hash authoritatively, decrypt the
whole file, append one record, re-encrypt and write, update
`last_hash`. -/
def AuditLog.append (log : AuditLog) (file : Option AuditFile) (e : AuditEntry) :
    Except String (AuditLog × AuditFile) :=
  let e1 := AuditEntry.rehash { e with previous_hash := log.last_hash, entry_hash := "" }
  match file with
  | none =>
    .ok ({ log with last_hash := e1.entry_hash }, { key := log.key, entries := [e1] })
  | some f =>
    if f.key = log.key then
      .ok ({ log with last_hash := e1.entry_hash },
           { key := log.key, entries := f.entries ++ [e1] })
    else .error "decryption failed"

/-- `AuditLog::log_unlock`. -/
def AuditLog.logUnlock (log : AuditLog) (file : Option AuditFile) (id ts : String) :
    Except String (AuditLog × AuditFile) :=
  log.append file (AuditEntry.mkNew .vaultUnlock log.last_hash id ts)

/-- `AuditLog::log_lock`. -/
def AuditLog.logLock (log : AuditLog) (file : Option AuditFile) (id ts : String) :
    Except String (AuditLog × AuditFile) :=
  log.append file (AuditEntry.mkNew .vaultLock log.last_hash id ts)

/-- `AuditLog::log_access`. -/
def AuditLog.logAccess (log : AuditLog) (file : Option AuditFile) (id ts : String)
    (eid ename : String) (cat : Category) (agent purpose : Option String) :
    Except String (AuditLog × AuditFile) :=
  let e := ((AuditEntry.mkNew .entryAccess log.last_hash id ts).withEntry eid ename).withCategory cat
  let e := match agent with
    | some a => e.withAgent a
    | none => e
  let e := match purpose with
    | some p => e.withPurpose p
    | none => e
  log.append file e

/-- `AuditLog::log_denial`. -/
def AuditLog.logDenial (log : AuditLog) (file : Option AuditFile) (id ts : String)
    (reason : String) (agent : Option String) (cat : Option Category) :
    Except String (AuditLog × AuditFile) :=
  let e := (AuditEntry.mkNew .accessDenied log.last_hash id ts).denied reason
  let e := match agent with
    | some a => e.withAgent a
    | none => e
  let e := match cat with
    | some c => e.withCategory c
    | none => e
  log.append file e

/-- Chain check of `AuditLog::verify_chain`, starting from an expected
previous hash: each entry must point at the running hash and its own
hash must recompute. -/
def verifyFrom (prev : String) : List AuditEntry → Bool
  | [] => true
  | e :: rest => (e.previous_hash == prev) && e.verifyHash && verifyFrom e.entry_hash rest

/-- Linkage-only part of the chain invariant: the first entry points at
genesis and every later entry points at its hash of its predecessor. -/
def linksOk (prev : String) : List AuditEntry → Bool
  | [] => true
  | e :: rest => (e.previous_hash == prev) && linksOk e.entry_hash rest

/-- Entries of an optional audit file (none: nothing written yet). -/
def fileEntries : Option AuditFile → List AuditEntry
  | none => []
  | some f => f.entries

/-- One invocation of a public audit helper, with its fresh id and
timestamp made explicit. -/
inductive AuditOp where
  | unlock (id ts : String)
  | lock (id ts : String)
  | access (id ts eid ename : String) (cat : Category) (agent purpose : Option String)
  | denial (id ts reason : String) (agent : Option String) (cat : Option Category)

/-- Apply one helper call to the log state (as in the daemon, an append
error leaves log and file unchanged). -/
def applyOp (st : AuditLog × Option AuditFile) (op : AuditOp) :
    AuditLog × Option AuditFile :=
  let res := match op with
    | .unlock id ts => st.1.logUnlock st.2 id ts
    | .lock id ts => st.1.logLock st.2 id ts
    | .access id ts eid ename cat agent purpose =>
        st.1.logAccess st.2 id ts eid ename cat agent purpose
    | .denial id ts reason agent cat => st.1.logDenial st.2 id ts reason agent cat
  match res with
  | .ok (log, f) => (log, some f)
  | .error _ => st

/-- Run a sequence of helper calls. -/
def runOps (st : AuditLog × Option AuditFile) (ops : List AuditOp) :
    AuditLog × Option AuditFile :=
  ops.foldl applyOp st

/-- A freshly opened audit log over a nonexistent file. -/
def freshAudit (key : List Nat) : AuditLog × Option AuditFile :=
  ({ key := key, last_hash := genesisHash }, none)

/-! ## Daemon state and request handling (`api.rs`) -/

/-- `api.rs::NewEntryRequest`. -/
structure NewEntryRequest where
  category : Category
  entry_type : EntryType
  name : String
  value : String
  username : Option String
  url : Option String

/-- `api.rs::Request` (the `cmd`-discriminated wire enumeration). -/
inductive Request where
  | unlock (passphrase : String) (categories : Option (List Category))
  | lock
  | status
  | list (category : Category)
  | get (id : Nat) (agent_id purpose : Option String)
  | create (entry : NewEntryRequest)
  | delete (id : Nat)
  | useForAuth (id : Nat) (target_url agent_id purpose : String)

/-- Payload of an `ok` response. -/
inductive RespData where
  | entries (l : List EntryMetadata)
  | entry (e : VaultEntry)
  | statusData (unlocked vault_exists : Bool)
  | created (id : Nat)
  | authStub (target : String)

/-- `api.rs::Response`. -/
inductive Response where
  | ok (data : Option RespData)
  | error (message : String)

/-- `api.rs::VaultDaemon`. -/
structure Daemon where
  vault : Option Vault
  audit : Option AuditLog

/-- Base64 decoding of a request value, modelled as an abstract
injective bytes-of-string map (the alphabet details are immaterial to
every claim; decoding never fails on the domain of the model). -/
def b64Decode (s : String) : Option (List Nat) :=
  some (strBytes s)

/-- Fresh randomness consumed by one request: UUID and timestamp
strings for audit entries, a fresh entry id and clock reading, and the
salts, DEK and nonces a vault creation or category save draws. -/
structure Fresh where
  auditId : String
  auditTs : String
  entryId : Nat
  now : Nat
  salt : List Nat
  dek : List Nat
  dekNonce : List Nat
  catNonce : Category → List Nat
  saveNonce : List Nat

/-- `VaultDaemon::handle_unlock`: open-or-create the vault and unlock
it; on success derive the audit key from a master key recomputed with
the hard-coded `[0u8; 32]` salt (the source comment reads
`// Would get from vault meta`), open the audit log best-effort and
record a `vault_unlock` event best-effort. -/
def Daemon.handleUnlock (d : Daemon) (fs : FS) (pass : String)
    (cats : Option (List Category)) (fr : Fresh) : Response × Daemon × FS :=
  let vaultRes : Except String (Vault × FS) :=
    if fs.vaultDirExists then
      match Vault.openVault fs with
      | .error e => .error ("Failed to open vault: " ++ errMsg e)
      | .ok v0 =>
        match cats with
        | some cl =>
          match v0.unlockCatsRes fs pass cl with
          | (none, v1) => .ok (v1, fs)
          | (some e, _) => .error ("Unlock failed: " ++ errMsg e)
        | none =>
          match v0.unlockRes fs pass with
          | (none, v1) => .ok (v1, fs)
          | (some e, _) => .error ("Unlock failed: " ++ errMsg e)
    else
      .ok (Vault.create fs pass fr.now fr.salt fr.dek fr.dekNonce fr.catNonce)
  match vaultRes with
  | .error m => (.error m, d, fs)
  | .ok (v, fs1) =>
    let mk := deriveMasterKey (strBytes pass) zeroSalt
    let auditKey := deriveSubkey mk "audit"
    match openLog fs1.auditFile auditKey with
    | .error _ => (.ok none, { vault := some v, audit := none }, fs1)
    | .ok log =>
      match log.logUnlock fs1.auditFile fr.auditId fr.auditTs with
      | .ok (log2, f2) =>
        (.ok none, { vault := some v, audit := some log2 },
         { fs1 with auditFile := some f2 })
      | .error _ => (.ok none, { vault := some v, audit := some log }, fs1)

/-- `VaultDaemon::handle_lock`: if a vault is open, record a
`vault_lock` event best-effort, lock and drop vault and audit handle;
otherwise report the error without touching anything. -/
def Daemon.handleLock (d : Daemon) (fs : FS) (fr : Fresh) : Response × Daemon × FS :=
  match d.vault with
  | none => (.error "Vault not unlocked", d, fs)
  | some v =>
    match d.audit with
    | none =>
      let _ := v.lock
      (.ok none, { vault := none, audit := none }, fs)
    | some log =>
      match log.logLock fs.auditFile fr.auditId fr.auditTs with
      | .ok (_, f2) =>
        let _ := v.lock
        (.ok none, { vault := none, audit := none }, { fs with auditFile := some f2 })
      | .error _ =>
        let _ := v.lock
        (.ok none, { vault := none, audit := none }, fs)

/-- `VaultDaemon::handle_status` (never requires unlock). -/
def Daemon.handleStatus (d : Daemon) (fs : FS) : Response :=
  .ok (some (.statusData (match d.vault with
    | some v => v.isUnlocked
    | none => false) fs.vaultDirExists))

/-- `VaultDaemon::handle_list`. -/
def Daemon.handleList (d : Daemon) (fs : FS) (c : Category) : Response × Daemon × FS :=
  match d.vault with
  | none => (.error "Vault not unlocked", d, fs)
  | some v =>
    if v.isUnlocked then
      match v.listEntries fs c with
      | .ok (ms, v2) => (.ok (some (.entries ms)), { d with vault := some v2 }, fs)
      | .error e => (.error ("List failed: " ++ errMsg e), d, fs)
    else (.error "Vault not unlocked", d, fs)

/-- `VaultDaemon::handle_get`: fetch the entry, record an
`entry_access` audit event best-effort, and return the full entry. -/
def Daemon.handleGet (d : Daemon) (fs : FS) (order : List Category) (fr : Fresh)
    (id : Nat) (agent purpose : Option String) : Response × Daemon × FS :=
  match d.vault with
  | none => (.error "Vault not unlocked", d, fs)
  | some v =>
    if v.isUnlocked then
      match v.getEntry fs order id with
      | .ok (some e, v2) =>
        match d.audit with
        | none => (.ok (some (.entry e)), { d with vault := some v2 }, fs)
        | some log =>
          match log.logAccess fs.auditFile fr.auditId fr.auditTs (toString e.id)
              e.name e.category agent purpose with
          | .ok (log2, f2) =>
            (.ok (some (.entry e)), { vault := some v2, audit := some log2 },
             { fs with auditFile := some f2 })
          | .error _ => (.ok (some (.entry e)), { d with vault := some v2 }, fs)
      | .ok (none, v2) => (.error "Entry not found", { d with vault := some v2 }, fs)
      | .error e => (.error ("Get failed: " ++ errMsg e), d, fs)
    else (.error "Vault not unlocked", d, fs)

/-- `VaultDaemon::handle_create`: decode the base64 value, build the
entry as `VaultEntry::new` plus the optional builders do, and add it. -/
def Daemon.handleCreate (d : Daemon) (fs : FS) (fr : Fresh) (req : NewEntryRequest) :
    Response × Daemon × FS :=
  match d.vault with
  | none => (.error "Vault not unlocked", d, fs)
  | some v =>
    if v.isUnlocked then
      match b64Decode req.value with
      | none => (.error "Invalid base64 value", d, fs)
      | some value =>
        let e : VaultEntry :=
          { id := fr.entryId, category := req.category, entry_type := req.entry_type,
            name := req.name, username := req.username, url := req.url, notes := none,
            value := value, tags := [], created := fr.now, modified := fr.now,
            accessed := fr.now, access_count := 0 }
        match v.addEntry fs e fr.saveNonce with
        | .ok (id, v2, fs2) => (.ok (some (.created id)), { d with vault := some v2 }, fs2)
        | .error err => (.error ("Create failed: " ++ errMsg err), d, fs)
    else (.error "Vault not unlocked", d, fs)

/-- `VaultDaemon::handle_delete`. -/
def Daemon.handleDelete (d : Daemon) (fs : FS) (fr : Fresh) (id : Nat) :
    Response × Daemon × FS :=
  match d.vault with
  | none => (.error "Vault not unlocked", d, fs)
  | some v =>
    if v.isUnlocked then
      match v.deleteEntry fs id fr.saveNonce with
      | .ok (true, v2, fs2) => (.ok none, { d with vault := some v2 }, fs2)
      | .ok (false, v2, fs2) => (.error "Entry not found", { d with vault := some v2 }, fs2)
      | .error e => (.error ("Delete failed: " ++ errMsg e), d, fs)
    else (.error "Vault not unlocked", d, fs)

/-- `VaultDaemon::handle_use_for_auth`: validate unlock and entry
existence, record an access audit event best-effort, and answer with
the not-yet-implemented stub payload. -/
def Daemon.handleUseForAuth (d : Daemon) (fs : FS) (order : List Category) (fr : Fresh)
    (id : Nat) (target agent purpose : String) : Response × Daemon × FS :=
  match d.vault with
  | none => (.error "Vault not unlocked", d, fs)
  | some v =>
    if v.isUnlocked then
      match v.getEntry fs order id with
      | .ok (some e, v2) =>
        match d.audit with
        | none => (.ok (some (.authStub target)), { d with vault := some v2 }, fs)
        | some log =>
          match log.logAccess fs.auditFile fr.auditId fr.auditTs (toString e.id)
              e.name e.category (some agent) (some purpose) with
          | .ok (log2, f2) =>
            (.ok (some (.authStub target)), { vault := some v2, audit := some log2 },
             { fs with auditFile := some f2 })
          | .error _ => (.ok (some (.authStub target)), { d with vault := some v2 }, fs)
      | .ok (none, v2) => (.error "Entry not found", { d with vault := some v2 }, fs)
      | .error e => (.error ("Auth failed: " ++ errMsg e), d, fs)
    else (.error "Vault not unlocked", d, fs)

/-- `VaultDaemon::handle`: dispatch one request.  `order` is the
(arbitrary) iteration order of the `unlocked_categories` hash map used
by entry search. -/
def Daemon.handle (d : Daemon) (fs : FS) (order : List Category) (fr : Fresh) :
    Request → Response × Daemon × FS
  | .unlock pass cats => d.handleUnlock fs pass cats fr
  | .lock => d.handleLock fs fr
  | .status => (d.handleStatus fs, d, fs)
  | .list c => d.handleList fs c
  | .get id agent purpose => d.handleGet fs order fr id agent purpose
  | .create req => d.handleCreate fs fr req
  | .delete id => d.handleDelete fs fr id
  | .useForAuth id target agent purpose =>
      d.handleUseForAuth fs order fr id target agent purpose

/-- The five entry operations gated by the unlock check. -/
def Request.isEntryOp : Request → Bool
  | .list _ => true
  | .get _ _ _ => true
  | .create _ => true
  | .delete _ => true
  | .useForAuth _ _ _ _ => true
  | _ => false

/-- The daemon has no usable vault: none open, or the open one is not
unlocked. -/
def Daemon.notUnlockedState (d : Daemon) : Prop :=
  d.vault = none ∨ ∃ v, d.vault = some v ∧ v.isUnlocked = false

/-! ## Sample states (concrete instances used to evaluate the model) -/

/-- A 24-byte nonce. -/
def nonce24 : List Nat := List.replicate 24 0

/-- A 32-byte key. -/
def key32 : List Nat := List.replicate 32 1

/-- A second, different 32-byte key. -/
def key32b : List Nat := List.replicate 32 2

/-- A 32-byte DEK value. -/
def dek32 : List Nat := List.replicate 32 7

/-- A non-zero 32-byte salt. -/
def salt1 : List Nat := 1 :: List.replicate 31 0

/-- Sample metadata with the non-zero salt. -/
def meta1 : VaultMeta :=
  { version := 1, created := 0, modified := 0, salt := salt1,
    kdf_memory_kib := 262144, kdf_iterations := 4, kdf_parallelism := 4,
    recovery_enabled := false, hardware_key_required := false }

/-- A vault in the `Locked` state (as produced by `Vault::open`). -/
def lockedVault : Vault :=
  { meta := meta1, master_key := none, kek := none, dek := none,
    category_keys := fun _ => none, unlocked_categories := fun _ => none }

/-- A file system whose `dek.enc` is sealed under an unrelated key, so
unlocking with any passphrase fails the DEK tag check. -/
def fsWrongDek : FS :=
  { vaultDirExists := true,
    dekFile := some { data := encrypt nonce24 dek32 key32, synced := true },
    catFiles := fun _ => none,
    metaFile := some { data := meta1, synced := false },
    auditFile := none }

/-- A file system holding a vault created with passphrase `pw` over
`salt1`: `dek.enc` is sealed under the real KEK. -/
def fsGoodDek : FS :=
  { vaultDirExists := true,
    dekFile := some
      { data := encrypt nonce24 dek32
          (deriveSubkey (deriveMasterKey (strBytes "pw") salt1) "kek"),
        synced := true },
    catFiles := fun _ => none,
    metaFile := some { data := meta1, synced := false },
    auditFile := none }

/-- An empty file system (no vault directory). -/
def fsEmpty : FS :=
  { vaultDirExists := false, dekFile := none, catFiles := fun _ => none,
    metaFile := none, auditFile := none }

/-- A sample entry in the authentication category. -/
def entryA : VaultEntry :=
  { id := 7, category := .authentication, entry_type := .password,
    name := "A", username := some "adam", url := none, notes := some "n",
    value := [9, 9], tags := ["t"], created := 0, modified := 0,
    accessed := 0, access_count := 0 }

/-- A second entry, in the financial category, sharing `entryA`s id. -/
def entryB : VaultEntry :=
  { id := 7, category := .financial, entry_type := .card,
    name := "B", username := none, url := none, notes := none,
    value := [4], tags := [], created := 0, modified := 0,
    accessed := 0, access_count := 0 }

/-- An entry with a distinct id. -/
def entryC : VaultEntry :=
  { id := 5, category := .authentication, entry_type := .password,
    name := "C", username := none, url := none, notes := none,
    value := [1], tags := [], created := 0, modified := 0,
    accessed := 0, access_count := 0 }

/-- An unlocked vault with the authentication category loaded (entry
`entryA` cached) and every other category loaded empty. -/
def unlockedVaultA : Vault :=
  { meta := meta1, master_key := some key32, kek := some key32,
    dek := some dek32, category_keys := fun _ => some key32,
    unlocked_categories := fun c =>
      if c = .authentication then some ⟨[entryA]⟩ else some ⟨[]⟩ }

/-- An unlocked vault whose authentication and financial categories
both cache an entry with id 7 (`entryA` and `entryB`): the global
uniqueness invariant is violated, which the code does not prevent. -/
def dupVault : Vault :=
  { meta := meta1, master_key := some key32, kek := some key32,
    dek := some dek32, category_keys := fun _ => some key32,
    unlocked_categories := fun c =>
      if c = .authentication then some ⟨[entryA]⟩
      else if c = .financial then some ⟨[entryB]⟩
      else some ⟨[]⟩ }

/-- An unlocked vault with all categories loaded and a single entry
`entryC` in authentication. -/
def uniqVault : Vault :=
  { meta := meta1, master_key := some key32, kek := some key32,
    dek := some dek32, category_keys := fun _ => some key32,
    unlocked_categories := fun c =>
      if c = .authentication then some ⟨[entryC]⟩ else some ⟨[]⟩ }

/-- A hash-map iteration order that visits `financial` before
`authentication` (a permutation `HashMap::values` may produce). -/
def ordFinFirst : List Category :=
  [.financial, .authentication, .identity, .health, .personal, .patterns]

/-- A daemon with no vault open. -/
def emptyDaemon : Daemon := { vault := none, audit := none }

/-- A daemon holding an open vault. -/
def openDaemon : Daemon := { vault := some unlockedVaultA, audit := none }

/-- Fixed fresh randomness for sample runs. -/
def fresh0 : Fresh :=
  { auditId := "uid", auditTs := "ts", entryId := 3, now := 0,
    salt := salt1, dek := dek32, dekNonce := nonce24,
    catNonce := fun _ => nonce24, saveNonce := nonce24 }

/-! ## Lemmas: injectivity of the encoding backbone -/

theorem mem_le_foldr_max {x : Nat} : ∀ {l : List Nat}, x ∈ l → x ≤ l.foldr Nat.max 0
  | [], h => by cases h
  | a :: t, h => by
    rcases List.mem_cons.mp h with h1 | h2
    · subst h1; exact Nat.le_max_left _ _
    · exact Nat.le_trans (mem_le_foldr_max h2) (Nat.le_max_right _ _)

theorem lt_listBase {x : Nat} {l : List Nat} (h : x ∈ l) : x < listBase l :=
  Nat.lt_succ_of_le (mem_le_foldr_max h)

theorem listBase_pos (l : List Nat) : 0 < listBase l := Nat.succ_pos _

theorem listDigits_inj (b : Nat) (hb : 0 < b) :
    ∀ l1 l2 : List Nat, l1.length = l2.length →
      (∀ x ∈ l1, x < b) → (∀ x ∈ l2, x < b) →
      listDigits b l1 = listDigits b l2 → l1 = l2 := by
  intro l1
  induction l1 with
  | nil =>
    intro l2 hlen _ _ _
    cases l2 with
    | nil => rfl
    | cons y s => simp at hlen
  | cons x t ih =>
    intro l2 hlen h1 h2 hd
    cases l2 with
    | nil => simp at hlen
    | cons y s =>
      have hx : x < b := h1 x (List.mem_cons_self x t)
      have hy : y < b := h2 y (List.mem_cons_self y s)
      have hmod : x = y := by
        have := congrArg (fun z => z % b) hd
        simp only [listDigits] at this
        rwa [Nat.add_mul_mod_self_left, Nat.add_mul_mod_self_left,
          Nat.mod_eq_of_lt hx, Nat.mod_eq_of_lt hy] at this
      subst hmod
      have hrest : listDigits b t = listDigits b s := by
        simp only [listDigits] at hd
        have := Nat.add_left_cancel hd
        exact Nat.eq_of_mul_eq_mul_left hb this
      have : t = s :=
        ih s (by simpa using hlen) (fun z hz => h1 z (List.mem_cons_of_mem _ hz))
          (fun z hz => h2 z (List.mem_cons_of_mem _ hz)) hrest
      rw [this]

theorem encodeList_inj : Function.Injective encodeList := by
  intro l1 l2 h
  unfold encodeList at h
  rw [Nat.pair_eq_pair] at h
  obtain ⟨h1, hdig⟩ := h
  rw [Nat.pair_eq_pair] at h1
  obtain ⟨hlen, hbase⟩ := h1
  exact listDigits_inj (listBase l1) (listBase_pos l1) l1 l2 hlen
    (fun x hx => lt_listBase hx)
    (fun x hx => hbase ▸ lt_listBase hx)
    (by rw [hbase] at hdig ⊢; exact hdig)

theorem tagNat_inj {k n b k2 n2 b2 : List Nat} (h : tagNat k n b = tagNat k2 n2 b2) :
    k = k2 ∧ n = n2 ∧ b = b2 := by
  unfold tagNat at h
  rw [Nat.pair_eq_pair] at h
  obtain ⟨h1, h2⟩ := h
  rw [Nat.pair_eq_pair] at h2
  exact ⟨encodeList_inj h1, encodeList_inj h2.1, encodeList_inj h2.2⟩

theorem tagFun_inj {k n b k2 n2 b2 : List Nat} (h : tagFun k n b = tagFun k2 n2 b2) :
    k = k2 ∧ n = n2 ∧ b = b2 := by
  unfold tagFun at h
  exact tagNat_inj (List.head_eq_of_cons_eq h)

/-! ## Lemmas: the AEAD model -/

theorem tagFun_length (k n b : List Nat) : (tagFun k n b).length = 16 := by
  simp [tagFun]

theorem keystream_length (k n : List Nat) (len : Nat) : (keystream k n len).length = len := by
  simp [keystream]

theorem cipherBody_length (k n m : List Nat) : (cipherBody k n m).length = m.length := by
  simp [cipherBody, keystream]

theorem unxor_zipWith :
    ∀ (m ks : List Nat), ks.length = m.length →
      List.zipWith (fun a b => a ^^^ b) (List.zipWith (fun a b => a ^^^ b) m ks) ks = m := by
  intro m
  induction m with
  | nil => intro ks _; simp
  | cons x t ih =>
    intro ks hks
    cases ks with
    | nil => simp at hks
    | cons c cs =>
      simp only [List.zipWith, List.cons.injEq]
      exact ⟨Nat.xor_cancel_right c x, ih cs (by simpa using hks)⟩

theorem decrypt_split (n b t k : List Nat) (hn : n.length = 24) (ht : t.length = 16) :
    decrypt (n ++ b ++ t) k =
      if t = tagFun k n b then
        some (List.zipWith (fun a c => a ^^^ c) b (keystream k n b.length))
      else none := by
  have hlen : (n ++ b ++ t).length = 24 + b.length + 16 := by
    simp [hn, ht]; omega
  have h40 : ¬ (n ++ b ++ t).length < 40 := by omega
  have htake : (n ++ b ++ t).take 24 = n := by
    rw [List.append_assoc, ← hn, List.take_left]
  have hdrop : (n ++ b ++ t).drop 24 = b ++ t := by
    rw [List.append_assoc, ← hn, List.drop_left]
  have hsub : (b ++ t).length - 16 = b.length := by
    rw [List.length_append, ht]
    omega
  have hbody : (b ++ t).take ((b ++ t).length - 16) = b := by
    rw [hsub]
    exact List.take_left b t
  have htag : (b ++ t).drop ((b ++ t).length - 16) = t := by
    rw [hsub]
    exact List.drop_left b t
  unfold decrypt
  rw [if_neg h40]
  simp only [htake, hdrop, hbody, htag]

theorem decrypt_encrypt (n m k : List Nat) (hn : n.length = 24) :
    decrypt (encrypt n m k) k = some m := by
  unfold encrypt
  rw [decrypt_split n (cipherBody k n m) (tagFun k n (cipherBody k n m)) k hn
    (tagFun_length _ _ _)]
  rw [if_pos rfl]
  rw [cipherBody_length]
  unfold cipherBody
  rw [unxor_zipWith m (keystream k n m.length) (keystream_length k n m.length)]

theorem set_ne_self (l : List Nat) (i v : Nat) (h : i < l.length)
    (hv : v ≠ l.get ⟨i, h⟩) : l.set i v ≠ l := by
  intro heq
  apply hv
  have h2 : i < (l.set i v).length := by
    rw [List.length_set]
    exact h
  have h3 := List.getElem_set_self h2
  rw [List.get_eq_getElem, ← h3]
  exact List.getElem_of_eq heq h2

theorem decrypt_short (c k : List Nat) (h : c.length < 40) : decrypt c k = none := by
  unfold decrypt
  rw [if_pos h]

theorem decrypt_wrong_key (n m k k2 : List Nat) (hn : n.length = 24) (hne : k2 ≠ k) :
    decrypt (encrypt n m k) k2 = none := by
  unfold encrypt
  rw [decrypt_split n (cipherBody k n m) (tagFun k n (cipherBody k n m)) k2 hn
    (tagFun_length _ _ _)]
  have hc : ¬ tagFun k n (cipherBody k n m) = tagFun k2 n (cipherBody k n m) := by
    intro he
    exact hne ((tagFun_inj he).1).symm
  rw [if_neg hc]

theorem decrypt_tampered (n m k : List Nat) (i v : Nat) (hn : n.length = 24)
    (hi : i < (encrypt n m k).length)
    (hv : v ≠ (encrypt n m k).get ⟨i, hi⟩) :
    decrypt ((encrypt n m k).set i v) k = none := by
  have henc : encrypt n m k = n ++ cipherBody k n m ++ tagFun k n (cipherBody k n m) := rfl
  revert hi hv
  rw [henc]
  intro hi hv
  have hbl : (cipherBody k n m).length = m.length := cipherBody_length k n m
  have htl : (tagFun k n (cipherBody k n m)).length = 16 := tagFun_length _ _ _
  have hnb : (n ++ cipherBody k n m).length = 24 + m.length := by
    rw [List.length_append, hn, hbl]
  have hclen : (n ++ cipherBody k n m ++ tagFun k n (cipherBody k n m)).length
      = 24 + m.length + 16 := by
    rw [List.length_append, hnb, htl]
  by_cases hA : i < 24 + m.length
  · -- the altered byte lies in the nonce or the body
    have hA2 : i < (n ++ cipherBody k n m).length := by omega
    have hset1 : (n ++ cipherBody k n m ++ tagFun k n (cipherBody k n m)).set i v
        = (n ++ cipherBody k n m).set i v ++ tagFun k n (cipherBody k n m) := by
      rw [List.set_append, if_pos hA2]
    have hgetnb : (n ++ cipherBody k n m ++ tagFun k n (cipherBody k n m)).get ⟨i, hi⟩
        = (n ++ cipherBody k n m).get ⟨i, hA2⟩ := by
      simp only [List.get_eq_getElem]
      exact List.getElem_append_left hA2
    by_cases hB : i < 24
    · -- nonce region
      have hBn : i < n.length := by omega
      have hset2 : (n ++ cipherBody k n m).set i v = n.set i v ++ cipherBody k n m := by
        rw [List.set_append, if_pos hBn]
      have hget : (n ++ cipherBody k n m).get ⟨i, hA2⟩ = n.get ⟨i, hBn⟩ := by
        simp only [List.get_eq_getElem]
        exact List.getElem_append_left hBn
      rw [hset1, hset2, decrypt_split (n.set i v) (cipherBody k n m)
        (tagFun k n (cipherBody k n m)) k (by rw [List.length_set]; exact hn) htl]
      have hcond : ¬ tagFun k n (cipherBody k n m) = tagFun k (n.set i v) (cipherBody k n m) := by
        intro he
        have h3 := (tagFun_inj he).2.1
        refine set_ne_self n i v hBn ?_ h3.symm
        intro hvv
        apply hv
        rw [hgetnb, hget]
        exact hvv
      rw [if_neg hcond]
    · -- body region
      have hBj : i - n.length < (cipherBody k n m).length := by omega
      have hBn : ¬ i < n.length := by omega
      have hset2 : (n ++ cipherBody k n m).set i v
          = n ++ (cipherBody k n m).set (i - n.length) v := by
        rw [List.set_append, if_neg hBn]
      have hget : (n ++ cipherBody k n m).get ⟨i, hA2⟩
          = (cipherBody k n m).get ⟨i - n.length, hBj⟩ := by
        simp only [List.get_eq_getElem]
        exact List.getElem_append_right (by omega)
      rw [hset1, hset2, decrypt_split n ((cipherBody k n m).set (i - n.length) v)
        (tagFun k n (cipherBody k n m)) k hn htl]
      have hcond : ¬ tagFun k n (cipherBody k n m)
          = tagFun k n ((cipherBody k n m).set (i - n.length) v) := by
        intro he
        have h3 := (tagFun_inj he).2.2
        refine set_ne_self (cipherBody k n m) (i - n.length) v hBj ?_ h3.symm
        intro hvv
        apply hv
        rw [hgetnb, hget]
        exact hvv
      rw [if_neg hcond]
  · -- tag region
    have hA2 : ¬ i < (n ++ cipherBody k n m).length := by omega
    have hjt : i - (n ++ cipherBody k n m).length < (tagFun k n (cipherBody k n m)).length := by
      omega
    have hset1 : (n ++ cipherBody k n m ++ tagFun k n (cipherBody k n m)).set i v
        = n ++ cipherBody k n m
          ++ (tagFun k n (cipherBody k n m)).set (i - (n ++ cipherBody k n m).length) v := by
      rw [List.set_append, if_neg hA2]
    have hget : (n ++ cipherBody k n m ++ tagFun k n (cipherBody k n m)).get ⟨i, hi⟩
        = (tagFun k n (cipherBody k n m)).get ⟨i - (n ++ cipherBody k n m).length, hjt⟩ := by
      simp only [List.get_eq_getElem]
      exact List.getElem_append_right (by omega)
    rw [hset1, decrypt_split n (cipherBody k n m)
      ((tagFun k n (cipherBody k n m)).set (i - (n ++ cipherBody k n m).length) v) k hn
      (by rw [List.length_set]; exact htl)]
    have hcond : ¬ (tagFun k n (cipherBody k n m)).set (i - (n ++ cipherBody k n m).length) v
        = tagFun k n (cipherBody k n m) := by
      refine set_ne_self (tagFun k n (cipherBody k n m))
        (i - (n ++ cipherBody k n m).length) v hjt ?_
      intro hvv
      apply hv
      rw [hget]
      exact hvv
    rw [if_neg hcond]



/-! ## Lemmas: audit hash chain -/

theorem hashInput_rehash (e : AuditEntry) :
    hashInput (AuditEntry.rehash e) = hashInput e := rfl

theorem verifyHash_rehash (e : AuditEntry) : (AuditEntry.rehash e).verifyHash = true := by
  simp [AuditEntry.verifyHash, AuditEntry.rehash, hashInput]

theorem verifyFrom_append (e : AuditEntry) :
    ∀ (l : List AuditEntry) (p : String),
      verifyFrom p (l ++ [e])
        = (verifyFrom p l &&
           ((e.previous_hash == l.foldl (fun _ x => x.entry_hash) p) && e.verifyHash)) := by
  intro l
  induction l with
  | nil =>
    intro p
    simp [verifyFrom]
  | cons x t ih =>
    intro p
    have h2 : t.append [e] = t ++ [e] := rfl
    simp only [List.cons_append, verifyFrom, List.foldl_cons, h2, ih, Bool.and_assoc]

theorem linksOk_append (e : AuditEntry) :
    ∀ (l : List AuditEntry) (p : String),
      linksOk p (l ++ [e])
        = (linksOk p l && (e.previous_hash == l.foldl (fun _ x => x.entry_hash) p)) := by
  intro l
  induction l with
  | nil =>
    intro p
    simp [linksOk]
  | cons x t ih =>
    intro p
    have h2 : t.append [e] = t ++ [e] := rfl
    simp only [List.cons_append, linksOk, List.foldl_cons, h2, ih, Bool.and_assoc]

theorem append_ok_of_key (log : AuditLog) (file : Option AuditFile) (e : AuditEntry)
    (hkey : ∀ f, file = some f → f.key = log.key) :
    log.append file e = .ok
      ({ key := log.key,
         last_hash := (AuditEntry.rehash
           { e with previous_hash := log.last_hash, entry_hash := "" }).entry_hash },
       { key := log.key,
         entries := fileEntries file ++
           [AuditEntry.rehash { e with previous_hash := log.last_hash, entry_hash := "" }] }) := by
  cases file with
  | none => simp [AuditLog.append, fileEntries]
  | some f =>
    have hk := hkey f rfl
    simp [AuditLog.append, hk, fileEntries]

theorem appendStep_inv (st : AuditLog × Option AuditFile) (e : AuditEntry)
    (hkey : ∀ f, st.2 = some f → f.key = st.1.key)
    (hlast : st.1.last_hash = (fileEntries st.2).foldl (fun _ x => x.entry_hash) genesisHash)
    (hver : verifyFrom genesisHash (fileEntries st.2) = true)
    (hlinks : linksOk genesisHash (fileEntries st.2) = true) :
    (∀ f, (match st.1.append st.2 e with
        | .ok (log, f) => (log, some f)
        | .error _ => st).2 = some f →
      f.key = (match st.1.append st.2 e with
        | .ok (log, f) => (log, some f)
        | .error _ => st).1.key)
    ∧ (match st.1.append st.2 e with
        | .ok (log, f) => (log, some f)
        | .error _ => st).1.last_hash
        = (fileEntries (match st.1.append st.2 e with
            | .ok (log, f) => (log, some f)
            | .error _ => st).2).foldl (fun _ x => x.entry_hash) genesisHash
    ∧ verifyFrom genesisHash (fileEntries (match st.1.append st.2 e with
        | .ok (log, f) => (log, some f)
        | .error _ => st).2) = true
    ∧ linksOk genesisHash (fileEntries (match st.1.append st.2 e with
        | .ok (log, f) => (log, some f)
        | .error _ => st).2) = true := by
  rw [append_ok_of_key st.1 st.2 e hkey]
  refine ⟨fun f hf => by cases hf; rfl, ?_, ?_, ?_⟩
  · simp [fileEntries, List.foldl_append]
  · simp only [fileEntries] at hver hlast ⊢
    rw [verifyFrom_append, hver]
    have hprev : (AuditEntry.rehash
        { e with previous_hash := st.1.last_hash, entry_hash := "" }).previous_hash
        = st.1.last_hash := rfl
    rw [hprev, hlast]
    simp [verifyHash_rehash]
  · simp only [fileEntries] at hlinks hlast ⊢
    rw [linksOk_append, hlinks]
    have hprev : (AuditEntry.rehash
        { e with previous_hash := st.1.last_hash, entry_hash := "" }).previous_hash
        = st.1.last_hash := rfl
    rw [hprev, hlast]
    simp

theorem applyOp_eq_append (st : AuditLog × Option AuditFile) (op : AuditOp) :
    ∃ e, applyOp st op = (match st.1.append st.2 e with
      | .ok (log, f) => (log, some f)
      | .error _ => st) := by
  cases op with
  | unlock id ts => exact ⟨_, rfl⟩
  | lock id ts => exact ⟨_, rfl⟩
  | access id ts eid ename cat agent purpose => exact ⟨_, rfl⟩
  | denial id ts reason agent cat => exact ⟨_, rfl⟩

theorem runOps_inv :
    ∀ (ops : List AuditOp) (st : AuditLog × Option AuditFile),
      (∀ f, st.2 = some f → f.key = st.1.key) →
      st.1.last_hash = (fileEntries st.2).foldl (fun _ x => x.entry_hash) genesisHash →
      verifyFrom genesisHash (fileEntries st.2) = true →
      linksOk genesisHash (fileEntries st.2) = true →
      (∀ f, (runOps st ops).2 = some f → f.key = (runOps st ops).1.key)
      ∧ (runOps st ops).1.last_hash
          = (fileEntries (runOps st ops).2).foldl (fun _ x => x.entry_hash) genesisHash
      ∧ verifyFrom genesisHash (fileEntries (runOps st ops).2) = true
      ∧ linksOk genesisHash (fileEntries (runOps st ops).2) = true := by
  intro ops
  induction ops with
  | nil =>
    intro st h1 h2 h3 h4
    exact ⟨h1, h2, h3, h4⟩
  | cons op rest ih =>
    intro st h1 h2 h3 h4
    obtain ⟨e, he⟩ := applyOp_eq_append st op
    have hstep := appendStep_inv st e h1 h2 h3 h4
    have hops : runOps st (op :: rest) = runOps (applyOp st op) rest := rfl
    rw [hops, he]
    exact ih _ hstep.1 hstep.2.1 hstep.2.2.1 hstep.2.2.2

/-! ## Lemmas: entry search order -/

theorem cat_mem_all (c : Category) : c ∈ Category.all := by
  cases c <;> simp [Category.all]

theorem entriesOf_eq_of_some {v : Vault} {c : Category} {d : CategoryData}
    (h : v.unlocked_categories c = some d) : entriesOf v c = d.entries := by
  simp [entriesOf, h]

theorem entriesOf_eq_nil {v : Vault} {c : Category}
    (h : v.unlocked_categories c = none) : entriesOf v c = [] := by
  simp [entriesOf, h]

theorem searchOrder_some_sound {v : Vault} {id : Nat} {e : VaultEntry} :
    ∀ {ord : List Category}, searchOrder v id ord = some e →
      e.id = id ∧ ∃ c ∈ ord, e ∈ entriesOf v c := by
  intro ord
  induction ord with
  | nil => intro h; simp [searchOrder] at h
  | cons c0 rest ih =>
    intro h
    cases hv : v.unlocked_categories c0 with
    | none =>
      simp only [searchOrder, hv] at h
      obtain ⟨hid, c, hc, hm⟩ := ih h
      exact ⟨hid, c, List.mem_cons_of_mem _ hc, hm⟩
    | some d =>
      simp only [searchOrder, hv] at h
      cases hf : d.entries.find? (fun x => x.id == id) with
      | none =>
        simp only [hf] at h
        obtain ⟨hid, c, hc, hm⟩ := ih h
        exact ⟨hid, c, List.mem_cons_of_mem _ hc, hm⟩
      | some x =>
        simp only [hf] at h
        cases h
        have hp := List.find?_some hf
        have hm := List.mem_of_find?_eq_some hf
        refine ⟨by simpa using hp, c0, List.mem_cons_self _ _, ?_⟩
        rw [entriesOf_eq_of_some hv]
        exact hm

theorem searchOrder_complete {v : Vault} {id : Nat} {e : VaultEntry} {c : Category}
    (huniq : uniqueIds v) (hid : e.id = id) :
    ∀ {ord : List Category}, c ∈ ord → e ∈ entriesOf v c →
      searchOrder v id ord = some e := by
  intro ord
  induction ord with
  | nil => intro h; simp at h
  | cons c0 rest ih =>
    intro hc hm
    cases hv : v.unlocked_categories c0 with
    | none =>
      simp only [searchOrder, hv]
      rcases List.mem_cons.mp hc with h1 | h2
      · subst h1
        rw [entriesOf_eq_nil hv] at hm
        simp at hm
      · exact ih h2 hm
    | some d =>
      simp only [searchOrder, hv]
      cases hf : d.entries.find? (fun x => x.id == id) with
      | some x =>
        simp only [hf]
        have hp := List.find?_some hf
        have hmx := List.mem_of_find?_eq_some hf
        have hxc0 : x ∈ entriesOf v c0 := by
          rw [entriesOf_eq_of_some hv]
          exact hmx
        have hxid : x.id = e.id := by
          have : x.id = id := by simpa using hp
          omega
        have hcall := huniq c0 (cat_mem_all c0) c (cat_mem_all c) x hxc0 e hm hxid
        rw [hcall.2]
      | none =>
        simp only [hf]
        rcases List.mem_cons.mp hc with h1 | h2
        · subst h1
          rw [entriesOf_eq_of_some hv] at hm
          have := List.find?_eq_none.mp hf e hm
          simp [hid] at this
        · exact ih h2 hm

theorem searchOrder_none_sound {v : Vault} {id : Nat} :
    ∀ {ord : List Category}, searchOrder v id ord = none →
      ∀ c ∈ ord, ∀ e ∈ entriesOf v c, e.id ≠ id := by
  intro ord
  induction ord with
  | nil => intro _ c hc; simp at hc
  | cons c0 rest ih =>
    intro h c hc e hm
    cases hv : v.unlocked_categories c0 with
    | none =>
      simp only [searchOrder, hv] at h
      rcases List.mem_cons.mp hc with h1 | h2
      · subst h1
        rw [entriesOf_eq_nil hv] at hm
        simp at hm
      · exact ih h c h2 e hm
    | some d =>
      simp only [searchOrder, hv] at h
      cases hf : d.entries.find? (fun x => x.id == id) with
      | some x => simp only [hf] at h; cases h
      | none =>
        simp only [hf] at h
        rcases List.mem_cons.mp hc with h1 | h2
        · subst h1
          rw [entriesOf_eq_of_some hv] at hm
          have := List.find?_eq_none.mp hf e hm
          simpa using this
        · exact ih h c h2 e hm

theorem searchOrder_valid_eq {v : Vault} {id : Nat} {ord : List Category}
    (horder : validEnum v ord) (huniq : uniqueIds v) :
    searchOrder v id ord = searchOrder v id Category.all := by
  cases h1 : searchOrder v id Category.all with
  | some e =>
    obtain ⟨hid, c, _, hm⟩ := searchOrder_some_sound h1
    have hsome : (v.unlocked_categories c).isSome := by
      cases hv : v.unlocked_categories c with
      | none => rw [entriesOf_eq_nil hv] at hm; simp at hm
      | some d => simp
    have hcord : c ∈ ord := (horder.2 c (cat_mem_all c)).mp hsome
    exact searchOrder_complete huniq hid hcord hm
  | none =>
    cases h2 : searchOrder v id ord with
    | none => rfl
    | some e =>
      obtain ⟨hid, c, _, hm⟩ := searchOrder_some_sound h2
      exact absurd hid (searchOrder_none_sound h1 c (cat_mem_all c) e hm)

theorem loadAllFrom_loaded {v : Vault} {fs : FS} :
    ∀ {l : List Category}, (∀ c ∈ l, (v.unlocked_categories c).isSome) →
      v.loadAllFrom fs l = .ok v := by
  intro l
  induction l with
  | nil => intro _; rfl
  | cons c rest ih =>
    intro h
    unfold Vault.loadAllFrom
    rw [if_pos (h c (List.mem_cons_self _ _))]
    exact ih (fun c2 hc2 => h c2 (List.mem_cons_of_mem _ hc2))

/-! ## Claim theorems -/

/-- C6: for every 32-byte key K and every plaintext byte string M,
decrypt(encrypt(M, K), K) succeeds and returns M, and encrypt produces
exactly nonce (24 bytes) || ciphertext_body || tag (16 bytes), so its
output is at least 40 bytes long. -/
theorem c6_encrypt_decrypt_roundtrip (k n m : List Nat)
    (hk : k.length = 32) (hn : n.length = 24) :
    decrypt (encrypt n m k) k = some m
    ∧ encrypt n m k = n ++ cipherBody k n m ++ tagFun k n (cipherBody k n m)
    ∧ (cipherBody k n m).length = m.length
    ∧ (tagFun k n (cipherBody k n m)).length = 16
    ∧ (encrypt n m k).length = 24 + m.length + 16
    ∧ 40 ≤ (encrypt n m k).length := by
  have hlen : (encrypt n m k).length = 24 + m.length + 16 := by
    show (n ++ cipherBody k n m ++ tagFun k n (cipherBody k n m)).length = _
    rw [List.length_append, List.length_append, hn, cipherBody_length, tagFun_length]
  refine ⟨decrypt_encrypt n m k hn, rfl, cipherBody_length k n m,
    tagFun_length _ _ _, hlen, ?_⟩
  rw [hlen]
  omega

/-- Witness for C6 at a concrete 32-byte key, 24-byte nonce and
two-byte message. -/
theorem c6_witness :
    decrypt (encrypt nonce24 [72, 105] key32) key32 = some [72, 105]
    ∧ encrypt nonce24 [72, 105] key32
        = nonce24 ++ cipherBody key32 nonce24 [72, 105]
          ++ tagFun key32 nonce24 (cipherBody key32 nonce24 [72, 105])
    ∧ (cipherBody key32 nonce24 [72, 105]).length = [72, 105].length
    ∧ (tagFun key32 nonce24 (cipherBody key32 nonce24 [72, 105])).length = 16
    ∧ (encrypt nonce24 [72, 105] key32).length = 24 + [72, 105].length + 16
    ∧ 40 ≤ (encrypt nonce24 [72, 105] key32).length :=
  c6_encrypt_decrypt_roundtrip key32 nonce24 [72, 105] rfl rfl

/-- C9: for every 32-byte key and every input byte string, decrypt
returns an error (it does not panic; the model is total and returns
`none`) whenever the input is shorter than 40 bytes, whenever the key
differs from the encryption key, or whenever any byte of a valid
ciphertext has been altered. -/
theorem c9_decrypt_rejects (k : List Nat) (hk : k.length = 32) :
    (∀ c : List Nat, c.length < 40 → decrypt c k = none)
    ∧ (∀ n m k2 : List Nat, n.length = 24 → k2 ≠ k →
        decrypt (encrypt n m k2) k = none)
    ∧ (∀ (n m : List Nat) (i v : Nat) (hn : n.length = 24)
        (hi : i < (encrypt n m k).length),
        v ≠ (encrypt n m k).get ⟨i, hi⟩ →
        decrypt ((encrypt n m k).set i v) k = none) := by
  refine ⟨fun c hc => decrypt_short c k hc, fun n m k2 hn hne => ?_,
    fun n m i v hn hi hv => decrypt_tampered n m k i v hn hi hv⟩
  exact decrypt_wrong_key n m k2 k hn (fun h => hne h.symm)

/-- Witness for C9: a short input, a wrong key, and a one-byte
alteration, each rejected at concrete values. -/
theorem c9_witness :
    decrypt [1, 2, 3] key32 = none
    ∧ decrypt (encrypt nonce24 [5] key32b) key32 = none
    ∧ decrypt ((encrypt nonce24 [5] key32).set 0 9) key32 = none := by
  refine ⟨(c9_decrypt_rejects key32 rfl).1 [1, 2, 3] (by decide),
    (c9_decrypt_rejects key32 rfl).2.1 nonce24 [5] key32b rfl (by decide),
    (c9_decrypt_rejects key32 rfl).2.2 nonce24 [5] 0 9 rfl (by decide) (by decide)⟩

/-- C2: for every sequence of appends made through the public audit
helpers, verify_chain() holds; the previous_hash of the first entry is the
64-zero genesis string and the previous_hash of every later entry equals the
preceding entry_hash (the linkage checker), because every append sets
previous_hash from the in-memory last_hash, recomputes the hash
authoritatively, writes, and updates last_hash. -/
theorem c2_audit_chain_verifies (key : List Nat) (ops : List AuditOp) :
    verifyFrom genesisHash (fileEntries (runOps (freshAudit key) ops).2) = true
    ∧ linksOk genesisHash (fileEntries (runOps (freshAudit key) ops).2) = true := by
  have h := runOps_inv ops (freshAudit key) (fun f hf => by cases hf) rfl rfl rfl
  exact ⟨h.2.2.1, h.2.2.2⟩

/-- C3: for a vault in the Locked state, unlock fails with
WrongPassphrase exactly when AEAD decryption of dek.enc under
kek = subkey(master, "kek") fails, and on any failure the vault remains
Locked: no master key, kek, dek or category key is retained. -/
theorem c3_unlock_failure (v : Vault) (fs : FS) (pass : String)
    (hm : v.master_key = none) (hk : v.kek = none) (hd : v.dek = none)
    (hc : ∀ c, v.category_keys c = none) :
    ((v.unlockRes fs pass).1 = some .wrongPassphrase ↔
      ∃ f, fs.dekFile = some f ∧
        decrypt f.data
          (deriveSubkey (deriveMasterKey (strBytes pass) v.meta.salt) "kek") = none)
    ∧ ∀ err, (v.unlockRes fs pass).1 = some err →
        (v.unlockRes fs pass).2 = v
        ∧ (v.unlockRes fs pass).2.isUnlocked = false
        ∧ (v.unlockRes fs pass).2.master_key = none
        ∧ (v.unlockRes fs pass).2.kek = none
        ∧ (v.unlockRes fs pass).2.dek = none
        ∧ ∀ c, (v.unlockRes fs pass).2.category_keys c = none := by
  cases hf : fs.dekFile with
  | none =>
    constructor
    · constructor
      · intro h
        simp only [Vault.unlockRes, hf] at h
        cases h
      · rintro ⟨f, hff, _⟩
        exact Option.noConfusion hff
    · intro err _
      refine ⟨?_, ?_, ?_, ?_, ?_, ?_⟩ <;>
        simp [Vault.unlockRes, hf, Vault.isUnlocked, hm, hk, hd, hc]
  | some f =>
    cases hdec : decrypt f.data
        (deriveSubkey (deriveMasterKey (strBytes pass) v.meta.salt) "kek") with
    | none =>
      constructor
      · constructor
        · intro _
          exact ⟨f, rfl, hdec⟩
        · intro _
          simp only [Vault.unlockRes, hf, hdec]
      · intro err _
        refine ⟨?_, ?_, ?_, ?_, ?_, ?_⟩ <;>
          simp [Vault.unlockRes, hf, hdec, Vault.isUnlocked, hm, hk, hd, hc]
    | some dekb =>
      by_cases hlen : dekb.length = 32
      · constructor
        · constructor
          · intro h
            simp only [Vault.unlockRes, hf, hdec, hlen, if_pos] at h
            cases h
          · rintro ⟨f2, hff, hdec2⟩
            cases hff
            rw [hdec] at hdec2
            cases hdec2
        · intro err herr
          simp only [Vault.unlockRes, hf, hdec, hlen, if_pos] at herr
          cases herr
      · constructor
        · constructor
          · intro h
            simp only [Vault.unlockRes, hf, hdec, hlen, if_neg] at h
            cases h
          · rintro ⟨f2, hff, hdec2⟩
            cases hff
            rw [hdec] at hdec2
            cases hdec2
        · intro err _
          refine ⟨?_, ?_, ?_, ?_, ?_, ?_⟩ <;>
            simp [Vault.unlockRes, hf, hdec, hlen, Vault.isUnlocked, hm, hk, hd, hc]

set_option maxRecDepth 100000 in
/-- Witness for C3: unlocking a locked vault whose dek.enc is sealed
under an unrelated key fails with WrongPassphrase. -/
theorem c3_witness :
    (lockedVault.unlockRes fsWrongDek "pw").1 = some VErr.wrongPassphrase := by
  have h := (c3_unlock_failure lockedVault fsWrongDek "pw" rfl rfl rfl (fun _ => rfl)).1
  exact h.mpr ⟨_, rfl, by decide⟩

/-- C4: for every unlocked vault and category, list_entries returns
exactly the per-entry metadata projection of the entries of that category in
insertion order, and the projection never contains the value
bytes or notes field for any input. -/
theorem c4_list_entries_projection (v : Vault) (fs : FS) (c : Category) (d : CategoryData)
    (hu : v.isUnlocked = true)
    (h : v.unlocked_categories c = some d
         ∨ (v.unlocked_categories c = none ∧ pureLoadCat v fs c = some d)) :
    (∃ v2, v.listEntries fs c = .ok (d.entries.map toMeta, v2))
    ∧ ∀ (e : VaultEntry) (val : List Nat) (nts : Option String),
        toMeta { e with value := val, notes := nts } = toMeta e := by
  refine ⟨?_, fun e val nts => rfl⟩
  rcases h with h1 | ⟨h1, h2⟩
  · exact ⟨v, by simp only [Vault.listEntries, h1]⟩
  · cases hk : v.category_keys c with
    | none =>
      simp only [pureLoadCat, hk] at h2
      exact Option.noConfusion h2
    | some key =>
      cases hfile : fs.catFiles c with
      | none =>
        simp only [pureLoadCat, hk, hfile] at h2
        exact Option.noConfusion h2
      | some f =>
        cases hdec : decrypt f.data key with
        | none =>
          simp only [pureLoadCat, hk, hfile, hdec, Option.bind] at h2
          exact Option.noConfusion h2
        | some pt =>
          have hp : parseCat pt = some d := by
            simp only [pureLoadCat, hk, hfile, hdec, Option.bind] at h2
            exact h2
          refine ⟨{ v with unlocked_categories :=
            fun c2 => if c2 = c then some d else v.unlocked_categories c2 }, ?_⟩
          simp [Vault.listEntries, h1, Vault.loadCategory, hk, hfile, hdec, hp]

/-- Witness for C4: listing the loaded authentication category of a
concrete unlocked vault. -/
theorem c4_witness :
    ∃ v2, unlockedVaultA.listEntries fsEmpty .authentication
      = .ok ((⟨[entryA]⟩ : CategoryData).entries.map toMeta, v2) :=
  (c4_list_entries_projection unlockedVaultA fsEmpty .authentication ⟨[entryA]⟩ rfl
    (Or.inl rfl)).1

/-- C5: whenever no vault is open or the open vault is not unlocked,
every entry operation (list, get, create, delete, use_for_auth) is
rejected with the uniform NotUnlocked error response and the daemon
state and on-disk files are unchanged. -/
theorem c5_entry_ops_rejected (d : Daemon) (fs : FS) (order : List Category)
    (fr : Fresh) (req : Request) (hreq : req.isEntryOp = true)
    (h : d.notUnlockedState) :
    d.handle fs order fr req = (.error "Vault not unlocked", d, fs) := by
  cases req with
  | unlock p cats => exact absurd hreq (by simp [Request.isEntryOp])
  | lock => exact absurd hreq (by simp [Request.isEntryOp])
  | status => exact absurd hreq (by simp [Request.isEntryOp])
  | list c =>
    rcases h with hnone | ⟨v, hsome, hlocked⟩
    · simp [Daemon.handle, Daemon.handleList, hnone]
    · simp [Daemon.handle, Daemon.handleList, hsome, hlocked]
  | get id agent purpose =>
    rcases h with hnone | ⟨v, hsome, hlocked⟩
    · simp [Daemon.handle, Daemon.handleGet, hnone]
    · simp [Daemon.handle, Daemon.handleGet, hsome, hlocked]
  | create req2 =>
    rcases h with hnone | ⟨v, hsome, hlocked⟩
    · simp [Daemon.handle, Daemon.handleCreate, hnone]
    · simp [Daemon.handle, Daemon.handleCreate, hsome, hlocked]
  | delete id =>
    rcases h with hnone | ⟨v, hsome, hlocked⟩
    · simp [Daemon.handle, Daemon.handleDelete, hnone]
    · simp [Daemon.handle, Daemon.handleDelete, hsome, hlocked]
  | useForAuth id target agent purpose =>
    rcases h with hnone | ⟨v, hsome, hlocked⟩
    · simp [Daemon.handle, Daemon.handleUseForAuth, hnone]
    · simp [Daemon.handle, Daemon.handleUseForAuth, hsome, hlocked]

/-- Witness for C5: a list request against a daemon with no vault open
is rejected and changes nothing. -/
theorem c5_witness :
    emptyDaemon.handle fsEmpty Category.all fresh0 (.list .authentication)
      = (.error "Vault not unlocked", emptyDaemon, fsEmpty) :=
  c5_entry_ops_rejected emptyDaemon fsEmpty Category.all fresh0
    (.list .authentication) rfl (Or.inl rfl)

/-- C10 (implicit): a Lock request with no vault open yields the error
response `Vault not unlocked` rather than ok, the daemon state and the
on-disk audit file are unchanged (so no vault_lock event is recorded),
and lock is not idempotent: after a successful Lock a second Lock
errors. -/
theorem c10_lock_not_idempotent (d : Daemon) (fs : FS) (fr1 fr2 : Fresh) :
    (d.vault = none → d.handleLock fs fr1 = (.error "Vault not unlocked", d, fs))
    ∧ ∀ v, d.vault = some v →
        (d.handleLock fs fr1).2.1.vault = none
        ∧ (d.handleLock fs fr1).2.1.handleLock (d.handleLock fs fr1).2.2 fr2
            = (.error "Vault not unlocked", (d.handleLock fs fr1).2.1,
               (d.handleLock fs fr1).2.2) := by
  constructor
  · intro h
    simp [Daemon.handleLock, h]
  · intro v hv
    cases ha : d.audit with
    | none =>
      constructor
      · simp [Daemon.handleLock, hv, ha]
      · simp [Daemon.handleLock, hv, ha]
    | some log =>
      cases happ : log.logLock fs.auditFile fr1.auditId fr1.auditTs with
      | ok pr =>
        constructor
        · simp [Daemon.handleLock, hv, ha, happ]
        · simp [Daemon.handleLock, hv, ha, happ]
      | error msg =>
        constructor
        · simp [Daemon.handleLock, hv, ha, happ]
        · simp [Daemon.handleLock, hv, ha, happ]

/-- Witness for C10: the error at a daemon with no vault, and the
non-idempotence after locking an open daemon. -/
theorem c10_witness :
    emptyDaemon.handleLock fsEmpty fresh0 = (.error "Vault not unlocked", emptyDaemon, fsEmpty)
    ∧ (openDaemon.handleLock fsEmpty fresh0).2.1.vault = none
    ∧ (openDaemon.handleLock fsEmpty fresh0).2.1.handleLock
        (openDaemon.handleLock fsEmpty fresh0).2.2 fresh0
        = (.error "Vault not unlocked", (openDaemon.handleLock fsEmpty fresh0).2.1,
           (openDaemon.handleLock fsEmpty fresh0).2.2) :=
  ⟨(c10_lock_not_idempotent emptyDaemon fsEmpty fresh0 fresh0).1 rfl,
   ((c10_lock_not_idempotent openDaemon fsEmpty fresh0 fresh0).2 unlockedVaultA rfl).1,
   ((c10_lock_not_idempotent openDaemon fsEmpty fresh0 fresh0).2 unlockedVaultA rfl).2⟩

/-- C8 counterexample: the source searches
`self.unlocked_categories.values()`, a HashMap whose iteration order is
arbitrary, not `Category::all()` order.  With both `authentication` and
`financial` caching an entry of id 7 and a values order that visits
`financial` first, `get_entry` returns the financial entry while the
`Category::all()`-order search required by the claim returns the
authentication one. -/
theorem c8_counterexample :
    validEnum dupVault ordFinFirst
    ∧ dupVault.getEntry fsEmpty ordFinFirst 7 = .ok (some entryB, dupVault)
    ∧ getEntrySpecOrder dupVault 7 = some entryA
    ∧ entryB ≠ entryA := by
  refine ⟨⟨by decide, by decide⟩, rfl, rfl, by decide⟩

/-- C8 amended: get_entry first loads every category not yet loaded (in
`Category::all()` order), then scans the cached categories in the
unspecified hash-map iteration order; when entry ids are globally
unique, the result coincides with the `Category::all()`-order search of
the specification. -/
theorem c8_get_entry_amended (v : Vault) (fs : FS) (order : List Category) (id : Nat)
    (horder : validEnum v order)
    (hall : ∀ c ∈ Category.all, (v.unlocked_categories c).isSome)
    (huniq : uniqueIds v) :
    v.getEntry fs order id = .ok (getEntrySpecOrder v id, v) := by
  unfold Vault.getEntry Vault.loadAll
  rw [loadAllFrom_loaded hall]
  show Except.ok (searchOrder v id order, v) = Except.ok (getEntrySpecOrder v id, v)
  rw [searchOrder_valid_eq horder huniq]
  rfl

/-- Witness for the amended C8 at a concrete vault with unique ids. -/
theorem c8_witness :
    uniqVault.getEntry fsEmpty Category.all 5
      = .ok (getEntrySpecOrder uniqVault 5, uniqVault) :=
  c8_get_entry_amended uniqVault fsEmpty Category.all 5
    (by unfold validEnum; exact ⟨by decide, by decide⟩)
    (by decide)
    (by unfold uniqueIds; decide)

set_option maxRecDepth 100000 in
/-- C1 (code bug): handling a successful Unlock, `handle_unlock`
derives the audit master key via `derive_master_key(passphrase,
&[0u8; 32])` with a hard-coded all-zero salt (its comment reads
`// Would get from vault meta`), so the audit log is opened under
subkey(derive(pass, 0^32), "audit") and not under
subkey(master, "audit") for the master derived from meta.salt.  At this
concrete state the unlock succeeds and a vault_unlock event is
recorded, but under the wrong key. -/
theorem c1_audit_key_zero_salt :
    (emptyDaemon.handleUnlock fsGoodDek "pw" none fresh0).1 = .ok none
    ∧ ((emptyDaemon.handleUnlock fsGoodDek "pw" none fresh0).2.1.audit).map AuditLog.key
        = some (deriveSubkey (deriveMasterKey (strBytes "pw") zeroSalt) "audit")
    ∧ (fileEntries (emptyDaemon.handleUnlock fsGoodDek "pw" none fresh0).2.2.auditFile).map
        AuditEntry.event_type = [AuditEventType.vaultUnlock]
    ∧ deriveSubkey (deriveMasterKey (strBytes "pw") zeroSalt) "audit"
        ≠ deriveSubkey (deriveMasterKey (strBytes "pw") meta1.salt) "audit" := by
  refine ⟨rfl, rfl, rfl, by decide⟩

/-- C7 (code bug): `Vault::create` writes `dek.enc` and `vault.meta`
with plain `File::create` + `write_all` and no `sync_all`; only the six
category files are written through `save_encrypted`, which fsyncs.
Evaluated at a concrete creation: the dek and meta writes are not
durable when the call returns. -/
theorem c7_create_fsync_gap :
    ((Vault.create fsEmpty "pw" 0 salt1 dek32 nonce24 (fun _ => nonce24)).2.dekFile).map
        FileData.synced = some false
    ∧ ((Vault.create fsEmpty "pw" 0 salt1 dek32 nonce24 (fun _ => nonce24)).2.metaFile).map
        FileData.synced = some false
    ∧ ∀ c : Category,
        ((Vault.create fsEmpty "pw" 0 salt1 dek32 nonce24 (fun _ => nonce24)).2.catFiles c).map
          FileData.synced = some true := by
  refine ⟨rfl, rfl, ?_⟩
  intro c
  cases c <;> rfl
